import Mathlib

/-!
Verification development for the Fashion-MNIST lecture repository.

The repository's only source file, `src/Class4/Fashion-MNIST.py`, contains the
data pipeline (pixel normalization and the reshaping of the dataset into
`(features, target)` pairs) and drives an external `network.Network` engine
(`network.py`, referenced by the file but not part of the sources).

The data pipeline is embedded below over `ℚ` (the Python code works with
floating-point values obtained from exact integer pixel values divided by
255, and from integer class labels; all values appearing are rational, so a
rational embedding is exact).  The network engine is modelled from the spec,
over `ℝ`, since the logistic sigmoid needs `Real.exp`.  Column vectors are
embedded as flat lists (`n × 1` ndarray ↦ list of length `n`).
-/

namespace FashionMNIST

/-! ## Data pipeline (from `src/Class4/Fashion-MNIST.py`) -/

/-- `X_train_normalize = [x/255.0 for x in X_train]`: every row of raw pixels
(integers `0..255`) is divided elementwise by `255.0`. -/
def X_train_normalize (X : List (List ℕ)) : List (List ℚ) :=
  X.map fun x => x.map fun (v : ℕ) => (v : ℚ) / 255

/-- The target vector built for class label `c` in the reshaping loop:
`tmp_y = pd.DataFrame(np.zeros(10)).values` followed by `tmp_y[y[i]] = y[i]`.
Entry `c` receives the value `c` itself (not `1`); all others stay `0`. -/
def tmp_y (c : ℕ) : List ℚ :=
  (List.range 10).map fun j => if j = c then (c : ℚ) else 0

/-- The reshaping loop: `training_data[i] = (tmp_x, tmp_y)` where `tmp_x` is
row `i` of the (already normalized) feature matrix and `tmp_y` is the target
vector for label `y[i]`. -/
def training_data (X : List (List ℚ)) (y : List ℕ) : List (List ℚ × List ℚ) :=
  List.zipWith (fun row c => (row, tmp_y c)) X y

/-- The layer sizes passed to the network: `network.Network([784, 30, 10])`. -/
def netSizes : List ℕ := [784, 30, 10]

/-! ## Network engine, modelled from the spec

`network.py` is imported by the source file but is not among the repository
sources; the following definitions are modelled from the spec's description
of the engine (§3, §4 of the spec). -/

/-- Activation vectors are flat lists of reals (column vectors). -/
abbrev Vec := List ℝ

/-- Matrices are lists of rows. -/
abbrev Mat := List Vec

/-- Modelled from the spec: the logistic sigmoid `σ(z) = 1/(1+e^-z)`. -/
noncomputable def sigmoid (z : ℝ) : ℝ := 1 / (1 + Real.exp (-z))

/-- Modelled from the spec: `σ'(z) = σ(z)(1-σ(z))`. -/
noncomputable def sigmoidDeriv (z : ℝ) : ℝ := sigmoid z * (1 - sigmoid z)

/-- Elementwise sum of two vectors. -/
def vAdd (u v : Vec) : Vec := List.zipWith (· + ·) u v

/-- Elementwise difference of two vectors. -/
def vSub (u v : Vec) : Vec := List.zipWith (· - ·) u v

/-- Elementwise (Hadamard) product of two vectors. -/
def hadamard (u v : Vec) : Vec := List.zipWith (· * ·) u v

/-- Scalar multiple of a vector. -/
def smulV (c : ℝ) (v : Vec) : Vec := v.map fun x => c * x

/-- Dot product. -/
def dot (u v : Vec) : ℝ := (List.zipWith (· * ·) u v).sum

/-- Matrix-vector product `W·v` (one dot product per row). -/
def matVec (w : Mat) (v : Vec) : Vec := w.map fun r => dot r v

/-- Outer product `d·aᵀ`: row `i` is `d i • a`. -/
def outer (d a : Vec) : Mat := d.map fun di => a.map fun aj => di * aj

/-- Sum of a list of vectors (empty list sums to the empty vector). -/
def sumVecs : List Vec → Vec
  | [] => []
  | [v] => v
  | v :: w :: vs => vAdd v (sumVecs (w :: vs))

/-- Transposed matrix-vector product `Wᵀ·d = Σᵢ dᵢ·(row i of W)`. -/
def matTvec (w : Mat) (d : Vec) : Vec := sumVecs (List.zipWith smulV d w)

/-- Combine two vectors entrywise with `f`. -/
def zipRows (f : ℝ → ℝ → ℝ) (u v : Vec) : Vec := List.zipWith f u v

/-- Combine two matrices entrywise with `f`. -/
def zipMats (f : ℝ → ℝ → ℝ) (a b : Mat) : Mat := List.zipWith (zipRows f) a b

/-- Combine two weight lists entrywise with `f`. -/
def zipParamsW (f : ℝ → ℝ → ℝ) (a b : List Mat) : List Mat :=
  List.zipWith (zipMats f) a b

/-- Combine two bias lists entrywise with `f`. -/
def zipParamsB (f : ℝ → ℝ → ℝ) (a b : List Vec) : List Vec :=
  List.zipWith (zipRows f) a b

/-- A vector of zeros with the same length as `v`. -/
def zerosLike (v : Vec) : Vec := v.map fun _ => (0 : ℝ)

/-- A matrix of zeros with the same shape as `w`. -/
def zerosLikeM (w : Mat) : Mat := w.map zerosLike

/-- Modelled from the spec: the network holds its layer sizes and, for each
layer `l` in `1..L-1`, a weight matrix of shape `(sizes[l], sizes[l-1])` and
a bias column vector of length `sizes[l]`. -/
structure Network where
  sizes : List ℕ
  weights : List Mat
  biases : List Vec

/-- Error conditions of the engine (spec §7). -/
inductive NetError where
  | shapeMismatch
  | configError
  deriving DecidableEq

/-- A weight matrix with `m` rows of `n` entries drawn from `f`. -/
def mkMat (m n : ℕ) (f : ℕ → ℕ → ℝ) : Mat :=
  (List.range m).map fun i => (List.range n).map fun j => f i j

/-- A bias vector with `m` entries drawn from `f`. -/
def mkBias (m : ℕ) (f : ℕ → ℝ) : Vec :=
  (List.range m).map f

/-- Modelled from the spec: allocate the parameters layer by layer; `n` is the
previous layer's size and `ss` the remaining layer sizes.  `gw`/`gb` supply
the (random, standard-normal in the reference) initial entries. -/
def mkParams (gw : ℕ → ℕ → ℕ → ℝ) (gb : ℕ → ℕ → ℝ) :
    ℕ → ℕ → List ℕ → List Mat × List Vec
  | _, _, [] => ([], [])
  | l, n, m :: ss =>
    let rest := mkParams gw gb (l + 1) m ss
    (mkMat m n (gw l) :: rest.1, mkBias m (gb l) :: rest.2)

/-- Modelled from the spec: network construction from `LayerSizes`. -/
def mkNetwork (sizes : List ℕ) (gw : ℕ → ℕ → ℕ → ℝ) (gb : ℕ → ℕ → ℝ) : Network :=
  match sizes with
  | [] => ⟨[], [], []⟩
  | n :: ss => ⟨n :: ss, (mkParams gw gb 1 n ss).1, (mkParams gw gb 1 n ss).2⟩

/-- The declared input layer size (`sizes[0]`). -/
def inputSize (net : Network) : ℕ := net.sizes.headD 0

/-- The last element of `n :: ss` (`sizes[-1]` with the head split off). -/
def lastSize : ℕ → List ℕ → ℕ
  | n, [] => n
  | _, m :: ss => lastSize m ss

/-- The declared output layer size (`sizes[-1]`). -/
def outputSize (net : Network) : ℕ :=
  match net.sizes with
  | [] => 0
  | n :: ss => lastSize n ss

/-- Modelled from the spec: `feedforward` applies `a' = σ(W·a + b)` for each
layer in order and returns the final activation. -/
noncomputable def feedforward (net : Network) (a : Vec) : Vec :=
  (net.weights.zip net.biases).foldl
    (fun acc wb => (vAdd (matVec wb.1 acc) wb.2).map sigmoid) a

/-- Modelled from the spec: `feedforward` is an observably pure call — it
returns the output activation and leaves the Parameters as they were (the
reference reads but never writes network state). -/
noncomputable def feedforwardCall (net : Network) (a : Vec) : Vec × Network :=
  (feedforward net a, net)

/-- One step of the backward recursion: given the weight matrix `w`, the
layer's input activation `a` and the layer's error `d`, prepend this layer's
gradients (`∇W = d·aᵀ`, `∇b = d`) and pass `wᵀ·d` down. -/
def bpStep (w : Mat) (a d : Vec) (g : List Mat × List Vec) :
    Vec × (List Mat × List Vec) :=
  (matTvec w d, (outer d a :: g.1, d :: g.2))

/-- Modelled from the spec (§4.1, backprop steps 1–4): recursive
backpropagation over the remaining layers.  Returns the error signal arriving
at the input of the first remaining layer (before the `⊙ σ'` factor) together
with the gradient lists for those layers.  For the empty layer list the
activation is the network output and the error signal is `a_L − y`. -/
noncomputable def bp : List (Mat × Vec) → Vec → Vec → Vec × (List Mat × List Vec)
  | [], a, y => (vSub a y, ([], []))
  | (w, b) :: rest, a, y =>
    bpStep w a
      (hadamard (bp rest ((vAdd (matVec w a) b).map sigmoid) y).1
        ((vAdd (matVec w a) b).map sigmoidDeriv))
      (bp rest ((vAdd (matVec w a) b).map sigmoid) y).2

/-- Modelled from the spec: `backprop(x, y)` fails with `ShapeMismatch` when
`x` or `y` disagrees with the declared input/output layer size, and otherwise
returns the per-layer gradients `(∇W, ∇b)` of the quadratic cost. -/
noncomputable def backprop (net : Network) (x y : Vec) :
    Except NetError (List Mat × List Vec) :=
  if x.length ≠ inputSize net ∨ y.length ≠ outputSize net then
    Except.error NetError.shapeMismatch
  else
    Except.ok (bp (net.weights.zip net.biases) x y).2

/-- Sum two gradient accumulators entrywise. -/
def addGrads (acc g : List Mat × List Vec) : List Mat × List Vec :=
  (zipParamsW (· + ·) acc.1 g.1, zipParamsB (· + ·) acc.2 g.2)

/-- Modelled from the spec: `update_mini_batch` sums the gradients returned by
`backprop` over the batch (accumulator initialized to zeros of the parameter
shapes) and applies `W ← W − (η/|batch|)·Σ∇W`, `b ← b − (η/|batch|)·Σ∇b`.
The learning rate is carried as a rational so that hyperparameter checks stay
executable; it is cast to `ℝ` for the update arithmetic. -/
noncomputable def update_mini_batch (net : Network) (batch : List (Vec × Vec))
    (learning_rate : ℚ) : Except NetError Network :=
  (batch.foldlM
      (fun acc ex => (backprop net ex.1 ex.2).map fun g => addGrads acc g)
      (net.weights.map zerosLikeM, net.biases.map zerosLike)).map
    fun sums =>
      ⟨net.sizes,
       zipParamsW (fun w0 g => w0 - ((learning_rate : ℝ) / (batch.length : ℝ)) * g)
         net.weights sums.1,
       zipParamsB (fun w0 g => w0 - ((learning_rate : ℝ) / (batch.length : ℝ)) * g)
         net.biases sums.2⟩

/-- Consecutive mini-batches of size `k` (the final one may be smaller). -/
def chunks (k : ℕ) : List α → List (List α)
  | [] => []
  | x :: xs =>
    if _hk : k = 0 then []
    else (x :: xs).take k :: chunks k ((x :: xs).drop k)
  termination_by l => l.length
  decreasing_by simp; omega

/-- Modelled from the spec: the epoch loop — for each epoch the training set
is shuffled, partitioned into mini-batches, and each batch applied via
`update_mini_batch`. -/
noncomputable def runEpochs (learning_rate : ℚ) (mini_batch_size : ℕ)
    (shuffle : ℕ → List (Vec × Vec) → List (Vec × Vec))
    (training_set : List (Vec × Vec)) (epochs : ℕ) (net : Network) :
    Except NetError Network :=
  (List.range epochs).foldlM
    (fun nt e =>
      (chunks mini_batch_size (shuffle e training_set)).foldlM
        (fun nt2 b => update_mini_batch nt2 b learning_rate) nt)
    net

/-- Modelled from the spec: the `SGD` training loop.  Hyperparameters are
validated first (`ConfigError` when the batch size is out of range, the
training set is empty, or the learning rate is non-positive); then for each
epoch the training set is shuffled (`shuffle e` models the epoch's random
permutation), partitioned into mini-batches, and each batch applied via
`update_mini_batch`.  After the final epoch the result pairs the final
network with its output activation vector for every example of the
originally supplied set, in input order. -/
noncomputable def SGD (net : Network) (training_set : List (Vec × Vec))
    (epochs mini_batch_size : ℕ) (learning_rate : ℚ)
    (shuffle : ℕ → List (Vec × Vec) → List (Vec × Vec)) :
    Except NetError (Network × List Vec) :=
  if mini_batch_size = 0 ∨ training_set.length < mini_batch_size ∨
      training_set.length = 0 then
    Except.error NetError.configError
  else if learning_rate ≤ 0 then
    Except.error NetError.configError
  else
    (runEpochs learning_rate mini_batch_size shuffle training_set epochs net).map
      fun nf => (nf, training_set.map fun ex => feedforward nf ex.1)

/-! ## Shape predicates -/

/-- The parameters `ws`, `bs` have the shapes demanded by previous-layer size
`n` and remaining sizes `ss`: the head weight matrix is `ss.head × n`, the
head bias has length `ss.head`, and so on down the list. -/
def ParamsShaped : ℕ → List ℕ → List Mat → List Vec → Prop
  | _, [], [], [] => True
  | n, m :: ss, w :: ws, b :: bs =>
    w.length = m ∧ (∀ r ∈ w, r.length = n) ∧ b.length = m ∧ ParamsShaped m ss ws bs
  | _, _, _, _ => False

/-- The network's parameters match its declared layer sizes: weight matrix
`l` has shape `(sizes[l], sizes[l-1])` and bias vector `l` has length
`sizes[l]` (the `sizes[l] × 1` column of the spec). -/
def hasShapes (net : Network) : Prop :=
  match net.sizes with
  | [] => False
  | n :: ss => ParamsShaped n ss net.weights net.biases

/-- A valid layer configuration (spec §3): at least two layers, all sizes
positive. -/
def validSizes (s : List ℕ) : Prop := 2 ≤ s.length ∧ ∀ m ∈ s, 0 < m

/-- Shape statement for a `backprop` result: it succeeded and the gradients
have exactly the parameter shapes. -/
def gradsShaped (net : Network) : Except NetError (List Mat × List Vec) → Prop
  | Except.error _ => False
  | Except.ok g => hasShapes ⟨net.sizes, g.1, g.2⟩

/-- Shape statement for an `update_mini_batch` result: it succeeded, kept the
layer sizes, and the updated parameters still match them. -/
def updateShaped (net : Network) : Except NetError Network → Prop
  | Except.error _ => False
  | Except.ok nt => nt.sizes = net.sizes ∧ hasShapes nt

/-! ## Witness fixtures -/

/-- A tiny concrete network used by the witnesses. -/
def net0 : Network := mkNetwork [2, 3, 1] (fun _ _ _ => 0) (fun _ _ => 0)

/-- A one-example training set with shapes matching `net0`. -/
def ts0 : List (Vec × Vec) := [([0, 0], [0])]

/-- An identity shuffle for the witnesses. -/
def noShuffle : ℕ → List (Vec × Vec) → List (Vec × Vec) := fun _ l => l

/-- The value `SGD` returns on `ts0` with zero epochs. -/
noncomputable def sgdRes0 : Network × List Vec :=
  (net0, [feedforward net0 [0, 0]])

/-! ## Helper lemmas -/

theorem mem_zipWith {α β γ : Type} {f : α → β → γ} :
    ∀ {l₁ : List α} {l₂ : List β} {c : γ},
      c ∈ List.zipWith f l₁ l₂ → ∃ a b, a ∈ l₁ ∧ b ∈ l₂ ∧ c = f a b := by
  intro l₁
  induction l₁ with
  | nil => intro l₂ c h; simp at h
  | cons a as ih =>
    intro l₂ c h
    cases l₂ with
    | nil => simp at h
    | cons b bs =>
      simp only [List.zipWith_cons_cons, List.mem_cons] at h
      rcases h with h | h
      · exact ⟨a, b, List.mem_cons_self a as, List.mem_cons_self b bs, h⟩
      · rcases ih h with ⟨a', b', ha, hb, hc⟩
        exact ⟨a', b', List.mem_cons_of_mem _ ha, List.mem_cons_of_mem _ hb, hc⟩

theorem tmp_y_length (c : ℕ) : (tmp_y c).length = 10 := by
  simp [tmp_y]

theorem sumVecs_length {m : ℕ} :
    ∀ (l : List Vec), l ≠ [] → (∀ v ∈ l, v.length = m) → (sumVecs l).length = m := by
  intro l
  induction l with
  | nil => intro h; exact absurd rfl h
  | cons v vs ih =>
    intro _ hall
    cases vs with
    | nil => exact hall v (List.mem_singleton.mpr rfl)
    | cons w ws =>
      have hv : v.length = m := hall v (List.mem_cons_self v _)
      have hrest : (sumVecs (w :: ws)).length = m :=
        ih (by simp) fun u hu => hall u (List.mem_cons_of_mem _ hu)
      simp [sumVecs, vAdd, List.length_zipWith, hv, hrest]

theorem matTvec_length {w : Mat} {d : Vec} {m n : ℕ}
    (hw : w.length = m) (hd : d.length = m) (hm : 0 < m)
    (hr : ∀ r ∈ w, r.length = n) : (matTvec w d).length = n := by
  unfold matTvec
  apply sumVecs_length
  · have : (List.zipWith smulV d w).length = m := by
      simp [List.length_zipWith, hw, hd]
    intro hnil
    rw [hnil] at this
    simp at this
    omega
  · intro v hv
    rcases mem_zipWith hv with ⟨c, r, _, hrw, rfl⟩
    simp [smulV, hr r hrw]

theorem paramsShaped_nil {n : ℕ} {ws : List Mat} {bs : List Vec}
    (h : ParamsShaped n [] ws bs) : ws = [] ∧ bs = [] := by
  cases ws with
  | nil =>
    cases bs with
    | nil => exact ⟨rfl, rfl⟩
    | cons b bs' => simp [ParamsShaped] at h
  | cons w ws' => cases bs <;> simp [ParamsShaped] at h

theorem paramsShaped_cons {n m : ℕ} {ss : List ℕ} {ws : List Mat} {bs : List Vec}
    (h : ParamsShaped n (m :: ss) ws bs) :
    ∃ w ws' b bs', ws = w :: ws' ∧ bs = b :: bs' ∧ w.length = m ∧
      (∀ r ∈ w, r.length = n) ∧ b.length = m ∧ ParamsShaped m ss ws' bs' := by
  cases ws with
  | nil => cases bs <;> simp [ParamsShaped] at h
  | cons w ws' =>
    cases bs with
    | nil => simp [ParamsShaped] at h
    | cons b bs' =>
      exact ⟨w, ws', b, bs', rfl, rfl, h.1, h.2.1, h.2.2.1, h.2.2.2⟩

theorem bp_shapes :
    ∀ (ss : List ℕ) (ws : List Mat) (bs : List Vec) (n : ℕ) (a y : Vec),
      ParamsShaped n ss ws bs → (∀ m ∈ ss, 0 < m) →
      a.length = n → y.length = lastSize n ss →
      (bp (ws.zip bs) a y).1.length = n ∧
        ParamsShaped n ss (bp (ws.zip bs) a y).2.1 (bp (ws.zip bs) a y).2.2 := by
  intro ss
  induction ss with
  | nil =>
    intro ws bs n a y hps _ ha hy
    obtain ⟨hws, hbs⟩ := paramsShaped_nil hps
    subst hws; subst hbs
    refine ⟨?_, trivial⟩
    have hy' : y.length = n := hy
    simp [bp, vSub, List.length_zipWith, ha, hy']
  | cons m ss' ih =>
    intro ws bs n a y hps hpos ha hy
    obtain ⟨w, ws', b, bs', rfl, rfl, hwm, hwr, hbm, hrest⟩ := paramsShaped_cons hps
    have hm : 0 < m := hpos m (List.mem_cons_self m ss')
    have hz : (vAdd (matVec w a) b).length = m := by
      simp [vAdd, matVec, List.length_zipWith, hwm, hbm]
    have ha2 : ((vAdd (matVec w a) b).map sigmoid).length = m := by
      simp [hz]
    have hy' : y.length = lastSize m ss' := hy
    have ihr := ih ws' bs' m ((vAdd (matVec w a) b).map sigmoid) y hrest
      (fun m' hm' => hpos m' (List.mem_cons_of_mem _ hm')) ha2 hy'
    have hd : (hadamard (bp (ws'.zip bs') ((vAdd (matVec w a) b).map sigmoid) y).1
        ((vAdd (matVec w a) b).map sigmoidDeriv)).length = m := by
      simp [hadamard, List.length_zipWith, ihr.1, hz]
    have hzipc : (w :: ws').zip (b :: bs') = (w, b) :: ws'.zip bs' := rfl
    rw [hzipc]
    simp only [bp, bpStep]
    refine ⟨matTvec_length hwm hd hm hwr, ?_, ?_, hd, ihr.2⟩
    · simp [outer, hd]
    · intro r hr
      simp only [outer, List.mem_map] at hr
      obtain ⟨di, _, rfl⟩ := hr
      simp [ha]

theorem backprop_ok_shaped {n : ℕ} {ss : List ℕ} {ws : List Mat} {bs : List Vec}
    (x y : Vec) (hps : ParamsShaped n ss ws bs) (hpos : ∀ m ∈ ss, 0 < m)
    (hx : x.length = n) (hy : y.length = lastSize n ss) :
    backprop ⟨n :: ss, ws, bs⟩ x y =
        Except.ok (bp (ws.zip bs) x y).2 ∧
      ParamsShaped n ss (bp (ws.zip bs) x y).2.1 (bp (ws.zip bs) x y).2.2 := by
  constructor
  · unfold backprop
    rw [if_neg]
    intro hcon
    rcases hcon with h | h
    · exact h hx
    · exact h hy
  · exact (bp_shapes ss ws bs n x y hps hpos hx hy).2

theorem zeros_shaped :
    ∀ (ss : List ℕ) (ws : List Mat) (bs : List Vec) (n : ℕ),
      ParamsShaped n ss ws bs →
      ParamsShaped n ss (ws.map zerosLikeM) (bs.map zerosLike) := by
  intro ss
  induction ss with
  | nil =>
    intro ws bs n h
    obtain ⟨rfl, rfl⟩ := paramsShaped_nil h
    trivial
  | cons m ss' ih =>
    intro ws bs n h
    obtain ⟨w, ws', b, bs', rfl, rfl, hwm, hwr, hbm, hrest⟩ := paramsShaped_cons h
    refine ⟨?_, ?_, ?_, ih ws' bs' m hrest⟩
    · simp [zerosLikeM, hwm]
    · intro r hr
      simp only [zerosLikeM, List.mem_map] at hr
      obtain ⟨r', hr', rfl⟩ := hr
      simp [zerosLike, hwr r' hr']
    · simp [zerosLike, hbm]

theorem combine_shaped (f : ℝ → ℝ → ℝ) :
    ∀ (ss : List ℕ) (w1 w2 : List Mat) (b1 b2 : List Vec) (n : ℕ),
      ParamsShaped n ss w1 b1 → ParamsShaped n ss w2 b2 →
      ParamsShaped n ss (zipParamsW f w1 w2) (zipParamsB f b1 b2) := by
  intro ss
  induction ss with
  | nil =>
    intro w1 w2 b1 b2 n h1 h2
    obtain ⟨rfl, rfl⟩ := paramsShaped_nil h1
    obtain ⟨rfl, rfl⟩ := paramsShaped_nil h2
    trivial
  | cons m ss' ih =>
    intro w1 w2 b1 b2 n h1 h2
    obtain ⟨u, us, c, cs, rfl, rfl, hum, hur, hcm, hrest1⟩ := paramsShaped_cons h1
    obtain ⟨v, vs, d, ds, rfl, rfl, hvm, hvr, hdm, hrest2⟩ := paramsShaped_cons h2
    refine ⟨?_, ?_, ?_, ih us vs cs ds m hrest1 hrest2⟩
    · simp [zipParamsW, zipMats, List.length_zipWith, hum, hvm]
    · intro r hr
      have hr' : r ∈ zipMats f u v := hr
      rcases mem_zipWith hr' with ⟨r1, r2, hr1, hr2, rfl⟩
      simp [zipRows, List.length_zipWith, hur r1 hr1, hvr r2 hr2]
    · simp [zipParamsB, zipRows, List.length_zipWith, hcm, hdm]

theorem accum_shaped {n : ℕ} {ss : List ℕ} {ws : List Mat} {bs : List Vec}
    (hps : ParamsShaped n ss ws bs) (hpos : ∀ m ∈ ss, 0 < m) :
    ∀ (batch : List (Vec × Vec)) (acc : List Mat × List Vec),
      (∀ ex ∈ batch, ex.1.length = n ∧ ex.2.length = lastSize n ss) →
      ParamsShaped n ss acc.1 acc.2 →
      ∃ s, batch.foldlM
            (fun acc2 ex =>
              (backprop ⟨n :: ss, ws, bs⟩ ex.1 ex.2).map fun g => addGrads acc2 g)
            acc = Except.ok s ∧ ParamsShaped n ss s.1 s.2 := by
  intro batch
  induction batch with
  | nil =>
    intro acc _ hacc
    exact ⟨acc, rfl, hacc⟩
  | cons ex rest ih =>
    intro acc hlen hacc
    have hex := hlen ex (List.mem_cons_self ex rest)
    have hbp := @backprop_ok_shaped n ss ws bs ex.1 ex.2 hps hpos hex.1 hex.2
    have hacc' : ParamsShaped n ss (addGrads acc (bp (ws.zip bs) ex.1 ex.2).2).1
        (addGrads acc (bp (ws.zip bs) ex.1 ex.2).2).2 :=
      combine_shaped (· + ·) ss acc.1 (bp (ws.zip bs) ex.1 ex.2).2.1
        acc.2 (bp (ws.zip bs) ex.1 ex.2).2.2 n hacc hbp.2
    obtain ⟨s, hs, hsp⟩ := ih (addGrads acc (bp (ws.zip bs) ex.1 ex.2).2)
      (fun e he => hlen e (List.mem_cons_of_mem _ he)) hacc'
    refine ⟨s, ?_, hsp⟩
    rw [List.foldlM_cons, hbp.1]
    simpa using hs

theorem mkParams_shaped (gw : ℕ → ℕ → ℕ → ℝ) (gb : ℕ → ℕ → ℝ) :
    ∀ (ss : List ℕ) (l n : ℕ),
      ParamsShaped n ss (mkParams gw gb l n ss).1 (mkParams gw gb l n ss).2 := by
  intro ss
  induction ss with
  | nil => intro l n; trivial
  | cons m ss' ih =>
    intro l n
    show ParamsShaped n (m :: ss')
      (mkMat m n (gw l) :: (mkParams gw gb (l + 1) m ss').1)
      (mkBias m (gb l) :: (mkParams gw gb (l + 1) m ss').2)
    refine ⟨by simp [mkMat], ?_, by simp [mkBias], ih (l + 1) m⟩
    intro r hr
    simp only [mkMat, List.mem_map] at hr
    obtain ⟨i, _, rfl⟩ := hr
    simp

theorem getD_map_of_lt {α β : Type} (l : List α) (f : α → β) (i : ℕ) (d : α) (d' : β)
    (h : i < l.length) : (l.map f).getD i d' = f (l.getD i d) := by
  rw [List.getD_eq_getElem?_getD, List.getD_eq_getElem?_getD, List.getElem?_map,
    List.getElem?_eq_getElem h]
  simp

/-! ## Claims about the data pipeline -/

/-- C1 (code bug evidence): evaluated at the failing class label `c = 2`, the
reshaping step produces the vector with entry `2` (not `1`) at index `2`, so
it is not the one-hot encoding the spec's data model demands. -/
theorem c1_reshaped_target_not_one_hot :
    tmp_y 2 = [0, 0, 2, 0, 0, 0, 0, 0, 0, 0] ∧
      tmp_y 2 ≠ [0, 0, 1, 0, 0, 0, 0, 0, 0, 0] := by
  constructor
  · decide
  · decide

/-- C2: for every class label `c < 10` the reshaping step produces a target
vector of length 10 whose entry at index `c` is the class index value `c`
itself and whose entry at any other index `j < 10` is `0`. -/
theorem c2_target_assigns_class_index :
    ∀ c : ℕ, c < 10 → ∀ j : ℕ, j < 10 → j ≠ c →
      (tmp_y c).length = 10 ∧ (tmp_y c).getD c 0 = (c : ℚ) ∧
        (tmp_y c).getD j 0 = 0 := by
  decide

/-- Witness for C2 at `c = 3`, `j = 5`. -/
theorem c2_witness :
    (tmp_y 3).length = 10 ∧ (tmp_y 3).getD 3 0 = (3 : ℚ) ∧
      (tmp_y 3).getD 5 0 = 0 :=
  c2_target_assigns_class_index 3 (by decide) 5 (by decide) (by decide)

/-- C10: for class label `0` the produced target vector is all zeros — the
assigned value equals the class index, so class `0` receives no non-zero
entry. -/
theorem c10_class_zero_target_all_zeros :
    tmp_y 0 = List.replicate 10 0 := by
  decide

/-- C3: every raw pixel value `v ≤ 255` is mapped to `v/255` by the
normalization step, and consequently every feature value of the normalized
training set lies in `[0, 1]`. -/
theorem c3_normalized_features_in_unit_interval :
    ∀ (X : List (List ℕ)) (row : List ℚ) (q : ℚ),
      (∀ r ∈ X, ∀ v ∈ r, v ≤ 255) →
      row ∈ X_train_normalize X → q ∈ row →
      (∃ v : ℕ, v ≤ 255 ∧ q = (v : ℚ) / 255) ∧ 0 ≤ q ∧ q ≤ 1 := by
  intro X row q hbound hrow hq
  simp only [X_train_normalize, List.mem_map] at hrow
  rcases hrow with ⟨r, hr, rfl⟩
  simp only [List.mem_map] at hq
  rcases hq with ⟨v, hv, rfl⟩
  have hv255 : v ≤ 255 := hbound r hr v hv
  refine ⟨⟨v, hv255, rfl⟩, ?_, ?_⟩
  · positivity
  · rw [div_le_one (by norm_num)]
    exact_mod_cast hv255

/-- Witness for C3 on the one-row dataset `[[128]]`. -/
theorem c3_witness :
    ((∃ v : ℕ, v ≤ 255 ∧ ((128 : ℕ) : ℚ) / 255 = (v : ℚ) / 255) ∧
      0 ≤ ((128 : ℕ) : ℚ) / 255 ∧ ((128 : ℕ) : ℚ) / 255 ≤ 1) :=
  c3_normalized_features_in_unit_interval [[128]] [((128 : ℕ) : ℚ) / 255]
    (((128 : ℕ) : ℚ) / 255)
    (by decide) (List.mem_singleton.mpr rfl) (List.mem_singleton.mpr rfl)

/-- C4: every example pair produced by the reshaping step matches the
declared topology `[784, 30, 10]`: when every feature row has length 784, the
feature vector has length `netSizes[0] = 784` and the target vector has
length `netSizes[-1] = 10`. -/
theorem c4_reshaped_example_matches_topology :
    ∀ (X : List (List ℚ)) (y : List ℕ) (p : List ℚ × List ℚ),
      (∀ r ∈ X, r.length = 784) → p ∈ training_data X y →
      p.1.length = netSizes.headD 0 ∧ p.2.length = netSizes.getLastD 0 := by
  intro X y p hrows hp
  rcases mem_zipWith hp with ⟨row, c, hrow, _, rfl⟩
  exact ⟨hrows row hrow, tmp_y_length c⟩

/-- Witness for C4 on a one-example dataset with a 784-pixel row. -/
theorem c4_witness :
    (List.replicate 784 (0 : ℚ)).length = netSizes.headD 0 ∧
      (tmp_y 3).length = netSizes.getLastD 0 :=
  c4_reshaped_example_matches_topology [List.replicate 784 (0 : ℚ)] [3]
    (List.replicate 784 (0 : ℚ), tmp_y 3)
    (fun r hr => by rw [List.mem_singleton] at hr; rw [hr, List.length_replicate])
    (List.mem_singleton.mpr rfl)

/-! ## Claims about the network engine (modelled from the spec) -/

/-- C7: `backprop` fails with `ShapeMismatch` exactly when the length of `x`
differs from the declared input layer size or the length of `y` differs from
the declared output layer size; it does not fail with `ShapeMismatch` when
both lengths match. -/
theorem c7_backprop_shape_mismatch_iff :
    ∀ (net : Network) (x y : Vec),
      backprop net x y = Except.error NetError.shapeMismatch ↔
        (x.length ≠ inputSize net ∨ y.length ≠ outputSize net) := by
  intro net x y
  unfold backprop
  split
  · next h => exact ⟨fun _ => h, fun _ => rfl⟩
  · next h => exact ⟨fun he => Except.noConfusion he, fun hc => absurd hc h⟩

/-- C9: for fixed Parameters `feedforward` is deterministic and side-effect
free — a second call on the state left by the first call returns the same
output, and the network state after both calls is the original one. -/
theorem c9_feedforward_deterministic_pure :
    ∀ (net : Network) (x : Vec),
      (feedforwardCall net x).1 = (feedforwardCall (feedforwardCall net x).2 x).1 ∧
        (feedforwardCall (feedforwardCall net x).2 x).2 = net :=
  fun _ _ => ⟨rfl, rfl⟩

/-- C6: calling `SGD`/train with an invalid hyperparameter — a mini-batch
size that is zero or exceeds the training set size, an empty training set,
or a non-positive learning rate — returns `ConfigError` at the start of
training, before any epoch runs (the engine state is untouched: no updated
network is produced). -/
theorem c6_invalid_config_raises_config_error :
    ∀ (net : Network) (ts : List (Vec × Vec)) (epochs k : ℕ) (lr : ℚ)
      (sh : ℕ → List (Vec × Vec) → List (Vec × Vec)),
      (k = 0 ∨ ts.length < k ∨ ts.length = 0 ∨ lr ≤ 0) →
      SGD net ts epochs k lr sh = Except.error NetError.configError := by
  intro net ts epochs k lr sh h
  unfold SGD
  by_cases h1 : k = 0 ∨ ts.length < k ∨ ts.length = 0
  · rw [if_pos h1]
  · rw [if_neg h1]
    have h2 : lr ≤ 0 := by
      rcases h with h | h | h | h
      · exact absurd (Or.inl h) h1
      · exact absurd (Or.inr (Or.inl h)) h1
      · exact absurd (Or.inr (Or.inr h)) h1
      · exact h
    rw [if_pos h2]

/-- Witness for C6: `mini_batch_size = 0` is rejected. -/
theorem c6_witness :
    SGD net0 ts0 1 0 3 noShuffle = Except.error NetError.configError :=
  c6_invalid_config_raises_config_error net0 ts0 1 0 3 noShuffle (Or.inl rfl)

/-- C5: whenever `SGD` returns successfully it returns one output activation
vector per example of the originally supplied training set, preserving input
order: the result has the same length as the supplied set and its entry at
position `i` is the final network's `feedforward` output for the example at
position `i`. -/
theorem c5_sgd_returns_outputs_in_order :
    ∀ (net : Network) (ts : List (Vec × Vec)) (epochs k : ℕ) (lr : ℚ)
      (sh : ℕ → List (Vec × Vec) → List (Vec × Vec)) (p : Network × List Vec)
      (i : ℕ),
      SGD net ts epochs k lr sh = Except.ok p → i < ts.length →
      p.2.length = ts.length ∧
        p.2.getD i [] = feedforward p.1 (ts.getD i ([], [])).1 := by
  intro net ts epochs k lr sh p i hok hi
  unfold SGD at hok
  by_cases h1 : k = 0 ∨ ts.length < k ∨ ts.length = 0
  · rw [if_pos h1] at hok; exact Except.noConfusion hok
  · rw [if_neg h1] at hok
    by_cases h2 : lr ≤ 0
    · rw [if_pos h2] at hok; exact Except.noConfusion hok
    · rw [if_neg h2] at hok
      cases hF : runEpochs lr k sh ts epochs net with
      | error e => rw [hF] at hok; exact Except.noConfusion hok
      | ok nf =>
        rw [hF] at hok
        simp only [Except.map] at hok
        injection hok with hok
        subst hok
        refine ⟨by simp, ?_⟩
        exact getD_map_of_lt ts (fun ex => feedforward nf ex.1) i ([], []) [] hi

/-- Witness for C5: a zero-epoch run on a one-example set succeeds and
returns exactly the network's output for that example. -/
theorem c5_witness :
    SGD net0 ts0 0 1 3 noShuffle = Except.ok sgdRes0 ∧
      sgdRes0.2.length = ts0.length ∧
      sgdRes0.2.getD 0 [] = feedforward sgdRes0.1 (ts0.getD 0 ([], [])).1 := by
  refine ⟨rfl, ?_, ?_⟩
  · exact (c5_sgd_returns_outputs_in_order net0 ts0 0 1 3 noShuffle sgdRes0 0
      rfl (by decide)).1
  · exact (c5_sgd_returns_outputs_in_order net0 ts0 0 1 3 noShuffle sgdRes0 0
      rfl (by decide)).2

/-- C8: the shape invariant.  (1) After construction from any layer
configuration, weight matrix `l` has shape `(sizes[l], sizes[l-1])` and bias
vector `l` has length `sizes[l]`.  (2) `backprop` (a pure function — it
leaves the Parameters untouched by construction) succeeds on well-shaped
input and returns gradients of exactly the parameter shapes.  (3)
`update_mini_batch`, the only mutator, succeeds on a well-shaped batch and
preserves the layer sizes and the parameter shapes — so the shapes never
change at any point during training. -/
theorem c8_shape_invariant :
    (∀ (sizes : List ℕ) (gw : ℕ → ℕ → ℕ → ℝ) (gb : ℕ → ℕ → ℝ),
        sizes ≠ [] → hasShapes (mkNetwork sizes gw gb)) ∧
    (∀ (net : Network) (x y : Vec),
        hasShapes net → validSizes net.sizes →
        x.length = inputSize net → y.length = outputSize net →
        gradsShaped net (backprop net x y)) ∧
    (∀ (net : Network) (batch : List (Vec × Vec)) (lr : ℚ),
        hasShapes net → validSizes net.sizes →
        (∀ ex ∈ batch, ex.1.length = inputSize net ∧ ex.2.length = outputSize net) →
        updateShaped net (update_mini_batch net batch lr)) := by
  refine ⟨?_, ?_, ?_⟩
  · intro sizes gw gb hne
    cases sizes with
    | nil => exact absurd rfl hne
    | cons n ss =>
      show ParamsShaped n ss (mkParams gw gb 1 n ss).1 (mkParams gw gb 1 n ss).2
      exact mkParams_shaped gw gb ss 1 n
  · intro net x y hsh hval hx hy
    obtain ⟨sizes, ws, bs⟩ := net
    cases sizes with
    | nil => exact hsh.elim
    | cons n ss =>
      have hps : ParamsShaped n ss ws bs := hsh
      have hpos : ∀ m ∈ ss, 0 < m := fun m hm => hval.2 m (List.mem_cons_of_mem _ hm)
      have hbp := @backprop_ok_shaped n ss ws bs x y hps hpos hx hy
      rw [hbp.1]
      exact hbp.2
  · intro net batch lr hsh hval hbatch
    obtain ⟨sizes, ws, bs⟩ := net
    cases sizes with
    | nil => exact hsh.elim
    | cons n ss =>
      have hps : ParamsShaped n ss ws bs := hsh
      have hpos : ∀ m ∈ ss, 0 < m := fun m hm => hval.2 m (List.mem_cons_of_mem _ hm)
      have hzero : ParamsShaped n ss (ws.map zerosLikeM) (bs.map zerosLike) :=
        zeros_shaped ss ws bs n hps
      obtain ⟨s, hs, hsp⟩ := @accum_shaped n ss ws bs hps hpos batch
        (ws.map zerosLikeM, bs.map zerosLike) hbatch hzero
      unfold update_mini_batch
      rw [hs]
      exact ⟨rfl, combine_shaped _ ss ws s.1 bs s.2 n hps hsp⟩

/-- Witness for C8 on the concrete topology `[2, 3, 1]` with a one-example
batch. -/
theorem c8_witness :
    hasShapes (mkNetwork [2, 3, 1] (fun _ _ _ => 0) (fun _ _ => 0)) ∧
      gradsShaped net0 (backprop net0 [0, 0] [0]) ∧
      updateShaped net0 (update_mini_batch net0 ts0 3) := by
  have h1 := c8_shape_invariant.1 [2, 3, 1] (fun _ _ _ => 0) (fun _ _ => 0)
    (by decide)
  refine ⟨h1, ?_, ?_⟩
  · exact c8_shape_invariant.2.1 net0 [0, 0] [0] h1 ⟨by decide, by decide⟩ rfl rfl
  · exact c8_shape_invariant.2.2 net0 ts0 3 h1 ⟨by decide, by decide⟩ (by decide)

end FashionMNIST
